import Mathlib

/-!
Verification model of the Kern hot-reload engine.

Shallow embedding of the core subsystems:
* `tracker/dependency.py` — `DependencyTracker` (static import analysis),
* `hot_reload/reloader.py` — `ModuleReloader` (cache eviction),
* `tracker/watcher.py` — `FileWatcher` (change detection / dirty set),
* `core/engine.py` — `Engine` (control loop, safe import, user-code execution).

Filesystem paths are modelled as lists of path components of an absolute,
resolved path (`pathlib.Path.resolve` is the identity on this model, and
`Path.parent` is `List.dropLast`).  A project filesystem is a list of
Python files, each carrying either a parsed import list or `none` when the
source fails to parse (or the file cannot be read).
-/

/-- A resolved absolute filesystem path, as its list of components. -/
abbrev FPath := List String

/-- One import-like statement extracted from a module's AST:
`imp` models `ast.Import` (each dotted name as a component list);
`impFrom` models `ast.ImportFrom` with its optional module, imported
names, and relative level. -/
inductive ImportStmt where
  | imp (names : List (List String))
  | impFrom (module : Option (List String)) (names : List String) (level : Nat)
deriving DecidableEq

/-- A Python source file of the project: its resolved path and, when the
source parses, the list of import statements in AST-walk order
(`none` models a read or parse failure). -/
structure PyFile where
  path : FPath
  content : Option (List ImportStmt)
deriving DecidableEq

/-- The monitored filesystem: the project's Python files. -/
abbrev FS := List PyFile

/-- Paths of all files that exist on disk. -/
def fsPaths (fs : FS) : List FPath := fs.map (·.path)

/-- Python's `p.exists()` check for a candidate file path. -/
def pExists (fs : FS) (p : FPath) : Bool := (fsPaths fs).contains p

/-- Python's `Path.parent`. -/
def parentDir (p : FPath) : FPath := p.dropLast

/-- Iterate `Path.parent`. -/
def iterParent (p : FPath) : Nat → FPath
  | 0 => p
  | n + 1 => iterParent (parentDir p) n

namespace DependencyTracker

/-- The anchor directory of `_resolve_import_to_path`: the project root
for absolute imports, or `current_file.parent` followed by `level - 1`
further `.parent` steps for relative imports. -/
def anchorDir (baseDir : FPath) (level : Nat) (currentFile : Option FPath) : FPath :=
  match level, currentFile with
  | l + 1, some f => iterParent (parentDir f) l
  | _, _ => baseDir

/-- Append `.py` to the final component (`anchor / f"{base_rel_path}.py"`);
an empty dotted name yields the literal file name `.py`. -/
def withPySuffix : List String → List String
  | [] => [".py"]
  | [x] => [x ++ ".py"]
  | x :: y :: xs => x :: withPySuffix (y :: xs)

/-- The ordered candidate list `search_paths` of `_resolve_import_to_path`. -/
def search_paths (anchor : FPath) (baseRel : List String) (itemName : Option String) :
    List FPath :=
  (match itemName with
   | some item => [anchor ++ baseRel ++ [item ++ ".py"]]
   | none => []) ++
  [anchor ++ withPySuffix baseRel, anchor ++ baseRel ++ ["__init__.py"]]

/-- Model of `DependencyTracker._resolve_import_to_path`: the first candidate that
exists on disk, or `none` (an external import). -/
def resolve_import_to_path (fs : FS) (baseDir : FPath) (baseName : List String)
    (itemName : Option String) (level : Nat) (currentFile : Option FPath) :
    Option FPath :=
  (search_paths (anchorDir baseDir level currentFile) baseName itemName).find? (pExists fs)

/-- The `found_paths` produced by one AST node inside `_scan`. -/
def stmtFoundPaths (fs : FS) (baseDir : FPath) (filePath : FPath) :
    ImportStmt → List FPath
  | .imp names =>
      names.filterMap (fun n => resolve_import_to_path fs baseDir n none 0 none)
  | .impFrom (some m) names level =>
      names.filterMap
        (fun a => resolve_import_to_path fs baseDir m (some a) level (some filePath)) ++
      (match resolve_import_to_path fs baseDir m none level (some filePath) with
       | some p => [p]
       | none => [])
  | .impFrom none names level =>
      if level > 0 then
        names.filterMap
          (fun a => resolve_import_to_path fs baseDir [] (some a) level (some filePath))
      else []

/-- All `found_paths` of a file, in AST-walk order. -/
def fileFoundPaths (fs : FS) (baseDir : FPath) (filePath : FPath)
    (stmts : List ImportStmt) : List FPath :=
  (stmts.map (stmtFoundPaths fs baseDir filePath)).flatten

/-- Look a path up on disk (`open` succeeding iff the file exists). -/
def findFile (fs : FS) (p : FPath) : Option PyFile := fs.find? (fun f => f.path == p)

/-- The mutable state threaded through `_scan`: `self.seen_modules` and the
`dependencies` set (as lists; only membership matters). -/
structure ScanState where
  seen : List FPath
  deps : List FPath
deriving DecidableEq

/-- Number of files on disk not yet in `seen_modules` (termination measure). -/
def unseenCount (fs : FS) (seen : List FPath) : Nat :=
  (fsPaths fs).countP (fun q => decide (q ∉ seen))

theorem unseenCount_mono {fs : FS} {s t : List FPath} (h : s ⊆ t) :
    unseenCount fs t ≤ unseenCount fs s := by
  apply List.countP_mono_left
  intro a _ ha
  simp only [decide_eq_true_eq] at ha ⊢
  exact fun hs => ha (h hs)

theorem countP_notMem_lt {l seen : List FPath} {p : FPath}
    (hmem : p ∈ l) (hns : p ∉ seen) :
    l.countP (fun q => decide (q ∉ p :: seen)) < l.countP (fun q => decide (q ∉ seen)) := by
  rw [List.countP_eq_length_filter, List.countP_eq_length_filter]
  have hsub : List.Sublist (l.filter (fun q => decide (q ∉ p :: seen)))
      (l.filter (fun q => decide (q ∉ seen))) := by
    apply List.monotone_filter_right
    intro a ha
    simp only [decide_eq_true_eq, List.mem_cons, not_or] at ha ⊢
    exact ha.2
  rcases lt_or_eq_of_le hsub.length_le with hlt | heq
  · exact hlt
  · exfalso
    have heqf := hsub.eq_of_length heq
    have hp1 : p ∈ l.filter (fun q => decide (q ∉ seen)) := by
      simp only [List.mem_filter, decide_eq_true_eq]
      exact ⟨hmem, hns⟩
    rw [← heqf] at hp1
    simp [List.mem_filter] at hp1

theorem unseenCount_lt {fs : FS} {seen : List FPath} {p : FPath}
    (hmem : p ∈ fsPaths fs) (hns : p ∉ seen) :
    unseenCount fs (p :: seen) < unseenCount fs seen :=
  countP_notMem_lt hmem hns

theorem mem_findFile_paths {fs : FS} {p : FPath} {f : PyFile}
    (h : findFile fs p = some f) : p ∈ fsPaths fs := by
  unfold findFile at h
  have hmem := List.mem_of_find?_eq_some h
  have hpred := List.find?_some h
  have : f.path = p := by simpa using hpred
  subst this
  exact List.mem_map_of_mem _ hmem

mutual

/-- Model of `DependencyTracker._scan`: skip files already in `seen_modules`; mark the
file seen; on read/parse failure stop expanding this branch (the file stays in
`dependencies`); otherwise process every resolved import path in order.
The returned state extends both `seen_modules` and `dependencies`. -/
def scan (fs : FS) (baseDir : FPath) (filePath : FPath) (st : ScanState) :
    {r : ScanState // st.seen ⊆ r.seen ∧ st.deps ⊆ r.deps} :=
  if hseen : filePath ∈ st.seen then
    ⟨st, List.Subset.refl _, List.Subset.refl _⟩
  else if hmem : filePath ∈ fsPaths fs then
    match (findFile fs filePath).bind (·.content) with
    | none =>
        ⟨⟨filePath :: st.seen, st.deps⟩,
          List.subset_cons_self _ _, List.Subset.refl _⟩
    | some stmts =>
        let r := scanPaths fs baseDir (fileFoundPaths fs baseDir filePath stmts)
          ⟨filePath :: st.seen, st.deps⟩
        ⟨r.val,
          List.Subset.trans (List.subset_cons_self _ _) r.property.1,
          r.property.2⟩
  else
    ⟨⟨filePath :: st.seen, st.deps⟩,
      List.subset_cons_self _ _, List.Subset.refl _⟩
termination_by (unseenCount fs st.seen, 0)
decreasing_by
  exact Prod.Lex.left _ _ (unseenCount_lt hmem hseen)

/-- The `for p in found_paths` loop body of `_scan`: a path already in
`dependencies` is skipped; otherwise it is added and scanned recursively. -/
def scanPaths (fs : FS) (baseDir : FPath) (ps : List FPath) (st : ScanState) :
    {r : ScanState // st.seen ⊆ r.seen ∧ st.deps ⊆ r.deps} :=
  match ps with
  | [] => ⟨st, List.Subset.refl _, List.Subset.refl _⟩
  | p :: rest =>
    if hdep : p ∈ st.deps then
      let r := scanPaths fs baseDir rest st
      ⟨r.val, r.property.1, r.property.2⟩
    else
      let r1 := scan fs baseDir p ⟨st.seen, p :: st.deps⟩
      let r2 := scanPaths fs baseDir rest r1.val
      ⟨r2.val,
        List.Subset.trans r1.property.1 r2.property.1,
        List.Subset.trans (List.Subset.trans (List.subset_cons_self _ _) r1.property.2)
          r2.property.2⟩
termination_by (unseenCount fs st.seen, ps.length + 1)
decreasing_by
  · simp_wf
    exact Prod.Lex.right _ (by omega)
  · simp_wf
    exact Prod.Lex.right _ (by omega)
  · simp_wf
    rcases lt_or_eq_of_le (unseenCount_mono r1.property.1) with hlt | heq
    · exact Prod.Lex.left _ _ hlt
    · rw [heq]
      exact Prod.Lex.right _ (by omega)

end

/-- Model of `DependencyTracker.get_local_dependencies`: reset `seen_modules`, seed
`dependencies` with the entry point, scan, and return the dependency set
(the defensive `try` around `_scan` never fires in this model, since the
scan is total). -/
def get_local_dependencies (fs : FS) (entryPoint : FPath) : List FPath :=
  (scan fs (parentDir entryPoint) entryPoint ⟨[], [entryPoint]⟩).val.deps

end DependencyTracker


namespace ModuleReloader

/-- Split a file name's characters at its last `.`, returning the parts
before and after that dot (`none` when no dot occurs). -/
def splitLastDot : List Char → Option (List Char × List Char)
  | [] => none
  | c :: rest =>
    match splitLastDot rest with
    | some (b, a) => some (c :: b, a)
    | none => if c = '.' then some ([], rest) else none

/-- Model of `PurePath.with_suffix("")` on a single file name: the final `.ext` is
removed only when the last dot is neither the leading nor the trailing
character (pathlib treats `.py` as a dotfile with no suffix). -/
def stripExt (s : String) : String :=
  match splitLastDot s.toList with
  | some (b, a) => if b ≠ [] ∧ a ≠ [] then String.mk b else s
  | none => s

/-- Model of `rel_path.with_suffix("")`: suffix removal touches only the final
path component. -/
def withSuffixRemoved : List String → List String
  | [] => []
  | [x] => [stripExt x]
  | x :: y :: xs => x :: withSuffixRemoved (y :: xs)

/-- Model of `ModuleReloader._get_module_name`: the dotted module name of a file,
relative to the project root; `__init__` maps to its containing package;
`none` models the caught `ValueError` when the file is not strictly inside
the project root (`relative_to` raising, or `with_suffix` on `.`). -/
def get_module_name (baseDir : FPath) (filePath : FPath) : Option String :=
  if baseDir <+: filePath then
    if withSuffixRemoved (filePath.drop baseDir.length) = [] then none
    else
      some (String.intercalate "."
        (if (withSuffixRemoved (filePath.drop baseDir.length)).getLast? = some "__init__"
         then (withSuffixRemoved (filePath.drop baseDir.length)).dropLast
         else withSuffixRemoved (filePath.drop baseDir.length)))
  else none

/-- Split a count of unmarked candidates by an auxiliary predicate. -/
theorem countP_and_split {α} (l : List α) (p q : α → Bool) :
    l.countP p = l.countP (fun a => p a && q a) + l.countP (fun a => p a && !q a) := by
  induction l with
  | nil => simp
  | cons a t ih =>
    simp only [List.countP_cons]
    cases hp : p a <;> cases hq : q a <;> simp [hp, hq] <;> omega

/-- Marking the newly found dependents removes exactly their number from the
count of unmarked candidates. -/
theorem countP_evict_split {α} [DecidableEq α] (allFiles toEvict : List α)
    (q : α → Bool) :
    allFiles.countP (fun c => decide (c ∉ toEvict)) =
      (allFiles.filter (fun c => decide (c ∉ toEvict) && q c)).length +
      allFiles.countP
        (fun c => decide (c ∉
          toEvict ++ allFiles.filter (fun c => decide (c ∉ toEvict) && q c))) := by
  have hsplit := countP_and_split allFiles (fun c => decide (c ∉ toEvict)) q
  have hlen : (allFiles.filter (fun c => decide (c ∉ toEvict) && q c)).length
      = allFiles.countP (fun c => decide (c ∉ toEvict) && q c) :=
    (List.countP_eq_length_filter _ _).symm
  have hcongr : allFiles.countP
      (fun c => decide (c ∉
        toEvict ++ allFiles.filter (fun c => decide (c ∉ toEvict) && q c))) =
      allFiles.countP (fun c => decide (c ∉ toEvict) && !q c) := by
    rw [List.countP_eq_length_filter, List.countP_eq_length_filter]
    congr 1
    apply List.filter_congr
    intro c hc
    by_cases h1 : c ∈ toEvict
    · simp [h1]
    · by_cases h2 : q c = true
      · have hmemnews : c ∈ allFiles.filter (fun c => decide (c ∉ toEvict) && q c) :=
          List.mem_filter.mpr ⟨hc, by simp [h1, h2]⟩
        simp [h1, h2, List.mem_append, hmemnews, hc]
      · have hnot : c ∉ allFiles.filter (fun c => decide (c ∉ toEvict) && q c) := by
          intro hmem
          have hpq := (List.mem_filter.mp hmem).2
          simp [h2] at hpq
        simp [h1, List.mem_append, hnot, h2]
  omega

/-- The loop measure shrinks at every pop (stated in the normal form produced
by `simp_wf`). -/
theorem evict_measure_lt {α} [BEq α] [LawfulBEq α] (dep : α → List α)
    (allFiles toEvict rest : List α) (p : α) :
    2 * allFiles.countP
        (fun c => !decide (c ∈ toEvict) &&
          (!decide (c ∈ allFiles) || (decide (c ∈ toEvict) || !decide (p ∈ dep c)))) +
      ((allFiles.filter (fun c => !decide (c ∈ toEvict) && decide (p ∈ dep c))).length +
        rest.length) <
    2 * allFiles.countP (fun c => !decide (c ∈ toEvict)) + (rest.length + 1) := by
  have hsplit := countP_and_split allFiles (fun c => !decide (c ∈ toEvict))
    (fun c => decide (p ∈ dep c))
  have hA : (allFiles.filter (fun c => !decide (c ∈ toEvict) && decide (p ∈ dep c))).length
      = allFiles.countP (fun c => !decide (c ∈ toEvict) && decide (p ∈ dep c)) :=
    (List.countP_eq_length_filter _ _).symm
  have hB : allFiles.countP
      (fun c => !decide (c ∈ toEvict) &&
        (!decide (c ∈ allFiles) || (decide (c ∈ toEvict) || !decide (p ∈ dep c)))) =
      allFiles.countP (fun c => !decide (c ∈ toEvict) && !decide (p ∈ dep c)) := by
    rw [List.countP_eq_length_filter, List.countP_eq_length_filter]
    congr 1
    apply List.filter_congr
    intro c hc
    by_cases h1 : c ∈ toEvict <;> by_cases h2 : p ∈ dep c <;> simp [hc, h1, h2]
  omega

/-- The work-stack loop of `_get_all_dependents_iterative`.  The model's
stack keeps its top at the head (the reverse of the Python list, which
pushes and pops at its tail); the computed set does not depend on the
traversal order.  A candidate already marked is skipped, and a candidate
whose freshly recomputed dependency set contains the popped file is
marked and pushed. -/
def get_all_dependents_loop (dep : FPath → List FPath) (allFiles : List FPath)
    (stack : List FPath) (toEvict : List FPath) : List FPath :=
  match stack with
  | [] => toEvict
  | current :: rest =>
    get_all_dependents_loop dep allFiles
      ((allFiles.filter
          (fun c => decide (c ∉ toEvict) && decide (current ∈ dep c))).reverse ++ rest)
      (toEvict ++
        allFiles.filter (fun c => decide (c ∉ toEvict) && decide (current ∈ dep c)))
termination_by (2 * allFiles.countP (fun c => decide (c ∉ toEvict)) + stack.length)
decreasing_by
  simp_wf
  apply evict_measure_lt

/-- Model of `ModuleReloader._get_all_dependents_iterative`: seed both the to-evict
set and the stack with the dirty files. -/
def get_all_dependents (dep : FPath → List FPath) (initialDirtyFiles : List FPath)
    (allProjectFiles : List FPath) : List FPath :=
  get_all_dependents_loop dep allProjectFiles initialDirtyFiles initialDirtyFiles

/-- The to-evict set computed inside `reload_affected_modules`: the project
universe is `resolve(entryFile)` and each candidate's dependency set is
recomputed with the candidate as a fresh entry point. -/
def to_evict_paths (fs : FS) (entryPoint : FPath) (dirtyPaths : List FPath) :
    List FPath :=
  get_all_dependents (fun c => DependencyTracker.get_local_dependencies fs c)
    dirtyPaths (DependencyTracker.get_local_dependencies fs entryPoint)

/-- Model of `sorted(..., key=lambda x: len(x.parts), reverse=True)`: eviction order,
most deeply nested paths first. -/
def sortedEviction (toEvictPaths : List FPath) : List FPath :=
  toEvictPaths.mergeSort (fun a b => decide (b.length ≤ a.length))

/-- One iteration of the eviction loop of `reload_affected_modules`: state is
`(evicted_names, sys.modules)`.  A file with no module name, a falsy (empty)
name, or a name not cached is skipped silently; the entry point additionally
evicts its `__main__` stem. -/
def evictOne (entryPoint : FPath) (baseDir : FPath)
    (st : List String × List String) (path : FPath) : List String × List String :=
  let st1 :=
    match get_module_name baseDir path with
    | some name =>
        if name ≠ "" ∧ name ∈ st.2 then
          (st.1 ++ [name], st.2.filter (fun m => !(m == name)))
        else st
    | none => st
  if path = entryPoint then
    let entryName := stripExt (entryPoint.getLastD "")
    if entryName ∈ st1.2 then
      (st1.1 ++ [entryName], st1.2.filter (fun m => !(m == entryName)))
    else st1
  else st1

/-- Model of `ModuleReloader.reload_affected_modules`: returns the evicted module
names (as a set, deduplicated) together with the surviving `sys.modules`. -/
def reload_affected_modules (fs : FS) (entryPoint : FPath) (sysMods : List String)
    (dirtyPaths : List FPath) : List String × List String :=
  if dirtyPaths = [] then ([], sysMods)
  else
    let r := (sortedEviction (to_evict_paths fs entryPoint dirtyPaths)).foldl
      (evictOne entryPoint (parentDir entryPoint)) ([], sysMods)
    (r.1.dedup, r.2)

end ModuleReloader

namespace FileWatcher

/-- The `FileWatcher` mutable state: last known modification times, the
accumulated dirty set, the change flag, and the last change timestamp
(time modelled as `ℚ`). -/
structure WatcherState where
  lastMtimes : List (FPath × ℚ)
  changedFiles : List FPath
  changeDetected : Bool
  lastChangeTime : ℚ
deriving DecidableEq

/-- Python's `self.last_mtimes.get(path, 0)`. -/
def mtimeGet (m : List (FPath × ℚ)) (p : FPath) : ℚ :=
  match m.find? (fun e => e.1 == p) with
  | some e => e.2
  | none => 0

/-- Python's `self.last_mtimes[path] = mtime` (dictionary update). -/
def mtimeSet (m : List (FPath × ℚ)) (p : FPath) (t : ℚ) : List (FPath × ℚ) :=
  (p, t) :: m.filter (fun e => !(e.1 == p))

/-- The body of the `for path, mtime in current_mtimes.items()` loop in
`FileWatcher.run`: a strictly increased modification time updates the stored
time, adds the file to the dirty set, raises the change flag and stamps the
change time (the re-scan of `self.dependencies` only affects which files are
observed on later polls, which the trace supplies explicitly). -/
def pollOne (now : ℚ) (st : WatcherState) (pm : FPath × ℚ) : WatcherState :=
  if mtimeGet st.lastMtimes pm.1 < pm.2 then
    { lastMtimes := mtimeSet st.lastMtimes pm.1 pm.2,
      changedFiles :=
        if pm.1 ∈ st.changedFiles then st.changedFiles else st.changedFiles ++ [pm.1],
      changeDetected := true,
      lastChangeTime := now }
  else st

/-- One polling tick of `FileWatcher.run` at time `now`, observing the
modification times `observed` (the result of `_get_mtimes`, in which files
that have disappeared are already absent). -/
def pollStep (now : ℚ) (observed : List (FPath × ℚ)) (st : WatcherState) : WatcherState :=
  observed.foldl (pollOne now) st

/-- Model of `FileWatcher.get_and_clear_dirty`: atomically return and clear the dirty
set, lowering the change flag. -/
def get_and_clear_dirty (st : WatcherState) : List FPath × WatcherState :=
  (st.changedFiles, { st with changedFiles := [], changeDetected := false })

end FileWatcher

namespace Engine

/-- The ANSI colors of `utils/colors.py`; `paint` tags a text with one. -/
inductive Color where
  | red | green | yellow | blue
deriving DecidableEq

/-- One line printed to the console: its text and its color. -/
structure Diag where
  text : String
  color : Color
deriving DecidableEq

/-- The user's loaded entry module: `run` is `none` when the module exposes
no `run` attribute, and otherwise carries the outcome of calling `run()`
(`Except.error tb` models an exception with traceback `tb`). -/
structure UserModule where
  run : Option (Except String Unit)

/-- The engine-visible state: the loaded module reference `self.user_module`,
the persisted contents of `engine_error.log`, and the emitted console
diagnostics. -/
structure EngineState where
  userModule : Option UserModule
  logContents : Option String
  diagnostics : List Diag

/-- Model of `Engine._log_error`: overwrite the log file with the traceback and print
a red alert plus a yellow pointer. -/
def log_error (st : EngineState) (tb : String) : EngineState :=
  { st with
    logContents := some tb,
    diagnostics := st.diagnostics ++
      [⟨"[!] EXECUTION/RECONSTRUCTION FAILED", Color.red⟩,
       ⟨"Detailed traceback saved to: engine_error.log", Color.yellow⟩] }

/-- Model of `Engine._safe_import`: the import-or-reload of the entry module either
produces a module or raises with a traceback (`importOutcome`); failure is
caught, logged, clears `self.user_module`, and reports `false`. -/
def safe_import (entryName : String) (st : EngineState)
    (importOutcome : Except String UserModule) : Bool × EngineState :=
  match importOutcome with
  | Except.ok m =>
      (true, { st with
        userModule := some m,
        diagnostics := st.diagnostics ++
          [⟨"[*] " ++ entryName ++ " reconstructed successfully.", Color.green⟩] })
  | Except.error tb =>
      (false, { log_error st tb with userModule := none })

/-- Model of `Engine._execute_user_code`: with no loaded module, do nothing; with a
module lacking `run`, print a yellow warning; otherwise invoke `run()`,
catching and logging any exception it raises. -/
def execute_user_code (entryName : String) (st : EngineState) : EngineState :=
  match st.userModule with
  | none => st
  | some m =>
      match m.run with
      | none =>
          { st with diagnostics := st.diagnostics ++
            [⟨"[?] Warning: No 'run()' function found in " ++ entryName ++ ".py",
              Color.yellow⟩] }
      | some r =>
          let st1 := { st with diagnostics := st.diagnostics ++
            [⟨"--- Executing " ++ entryName ++ ".run() ---", Color.blue⟩] }
          match r with
          | Except.ok _ =>
              { st1 with diagnostics := st1.diagnostics ++
                [⟨"------------------------------", Color.blue⟩] }
          | Except.error tb => log_error st1 tb

/-- The constant `Engine.DEBOUNCE_SECONDS`. -/
def DEBOUNCE_SECONDS : ℚ := 1/2

/-- The oracle inputs of one iteration of the `while True` loop in
`Engine.start`: the watcher's flag and timing as read by the loop, the
outcome the runtime would produce for a (re)import, and whether a
`KeyboardInterrupt` arrives during the iteration. -/
structure TickInput where
  changeDetected : Bool
  timeSinceLastSave : ℚ
  importOutcome : Except String UserModule
  interrupt : Bool

/-- One iteration of `Engine.start`'s control loop.  A `KeyboardInterrupt`
escapes the body (modelled as `Except.error ()`) and is the only non-`ok`
outcome; otherwise, when a change has been detected and the debounce window
has elapsed, the loop drains the dirty set, evicts affected modules (a
`sys.modules` effect outside `EngineState`), prints the recovery notice, and
re-imports, executing the user code only on success. -/
def engine_tick (entryName : String) (st : EngineState) (inp : TickInput) :
    Except Unit EngineState :=
  if inp.interrupt then Except.error ()
  else Except.ok (
    if inp.changeDetected ∧ DEBOUNCE_SECONDS ≤ inp.timeSinceLastSave then
      let st0 := { st with diagnostics := st.diagnostics ++
        [⟨"[v] Stable change detected. Attempting recovery...", Color.yellow⟩] }
      let r := safe_import entryName st0 inp.importOutcome
      if r.1 then execute_user_code entryName r.2 else r.2
    else st)

/-- The control loop of `Engine.start` over a finite trace of iterations. -/
def engine_run (entryName : String) (st : EngineState) :
    List TickInput → Except Unit EngineState
  | [] => Except.ok st
  | inp :: rest =>
    match engine_tick entryName st inp with
    | Except.ok st1 => engine_run entryName st1 rest
    | Except.error e => Except.error e

end Engine

/-! Demonstration projects used by concrete conjuncts and witnesses. -/

/-- Path of `proj/a.py`, importing `b`. -/
def cycA : FPath := ["proj", "a.py"]

/-- Path of `proj/b.py`, importing `a`. -/
def cycB : FPath := ["proj", "b.py"]

/-- A two-file project whose import graph is the cycle `a ↔ b`. -/
def cycFS : FS :=
  [⟨cycA, some [ImportStmt.imp [["b"]]]⟩, ⟨cycB, some [ImportStmt.imp [["a"]]]⟩]

/-- Path of `proj/main.py` for the broken-entry project. -/
def brokenEntry : FPath := ["proj", "main.py"]

/-- A project whose entry file fails to parse (`content = none`). -/
def brokenFS : FS := [⟨brokenEntry, none⟩, ⟨["proj", "lib.py"], some []⟩]

/-- Path of `q/main.py`, which parses and imports `lib`. -/
def stopA : FPath := ["q", "main.py"]

/-- Path of `q/lib.py`, whose source fails to parse. -/
def stopLib : FPath := ["q", "lib.py"]

/-- Path of `q/helper.py`, reachable only through the broken `lib`. -/
def stopHelper : FPath := ["q", "helper.py"]

/-- A project in which expansion stops at the unparsable `lib`: `helper` is
on disk but only reachable through `lib`. -/
def stopFS : FS :=
  [⟨stopA, some [ImportStmt.imp [["lib"]]]⟩, ⟨stopLib, none⟩, ⟨stopHelper, some []⟩]

/-- C1: a file whose source fails to parse is kept in the dependency set but
not expanded further, and `get_local_dependencies`, a total function, never
lets the failure escape: an unparsable entry file resolves to exactly itself,
and in the stop-project the unparsable `lib` stays in the result while
`helper`, reachable only through it, is absent. -/
theorem parse_failure_keeps_entry :
    (∀ (fs : FS) (entryPoint : FPath) (f : PyFile),
       DependencyTracker.findFile fs entryPoint = some f → f.content = none →
       DependencyTracker.get_local_dependencies fs entryPoint = [entryPoint]) ∧
    DependencyTracker.get_local_dependencies stopFS stopA = [stopLib, stopA] := by
  constructor
  · intro fs entryPoint f hfind hbad
    have hmem : entryPoint ∈ fsPaths fs := DependencyTracker.mem_findFile_paths hfind
    simp [DependencyTracker.get_local_dependencies, DependencyTracker.scan, hmem,
      hfind, hbad]
  · simp [DependencyTracker.get_local_dependencies, DependencyTracker.scan,
      DependencyTracker.scanPaths, DependencyTracker.findFile,
      DependencyTracker.fileFoundPaths, DependencyTracker.stmtFoundPaths,
      DependencyTracker.resolve_import_to_path, DependencyTracker.search_paths,
      DependencyTracker.anchorDir, DependencyTracker.withPySuffix,
      pExists, fsPaths, parentDir, stopFS, stopA, stopLib, stopHelper, List.find?,
      List.flatten, List.filterMap, List.contains, beq_self_eq_true]

/-- C1, witness: resolving the broken-entry project yields exactly the entry. -/
theorem parse_failure_keeps_entry_witness :
    DependencyTracker.get_local_dependencies brokenFS brokenEntry = [brokenEntry] :=
  parse_failure_keeps_entry.1 brokenFS brokenEntry ⟨brokenEntry, none⟩ (by decide) rfl

/-- C2: for every entry file and every project filesystem — cycles and
self-edges included — `get_local_dependencies` is a total (hence terminating)
function whose finite result contains the entry file; on the concrete cyclic
project `a ↔ b` it evaluates to exactly `{a, b}`. -/
theorem resolve_contains_entry_and_cycle_terminates :
    (∀ (fs : FS) (entryPoint : FPath),
      entryPoint ∈ DependencyTracker.get_local_dependencies fs entryPoint) ∧
    DependencyTracker.get_local_dependencies cycFS cycA = [cycB, cycA] := by
  constructor
  · intro fs e
    exact (DependencyTracker.scan fs (parentDir e) e ⟨[], [e]⟩).property.2 (by simp)
  · simp [DependencyTracker.get_local_dependencies, DependencyTracker.scan,
      DependencyTracker.scanPaths, DependencyTracker.findFile,
      DependencyTracker.fileFoundPaths, DependencyTracker.stmtFoundPaths,
      DependencyTracker.resolve_import_to_path, DependencyTracker.search_paths,
      DependencyTracker.anchorDir, DependencyTracker.withPySuffix,
      pExists, fsPaths, parentDir, cycFS, cycA, cycB, List.find?, List.flatten,
      List.filterMap, List.contains, beq_self_eq_true]

/-- C4: eviction processes the to-evict set sorted by path depth descending:
the processing order is a permutation of the to-evict set that is pairwise
non-increasing in depth, so a strictly shallower path is never processed
before a deeper one. -/
theorem eviction_sorted_depth_descending :
    (∀ l : List FPath, List.Pairwise (fun a b => b.length ≤ a.length)
        (ModuleReloader.sortedEviction l)) ∧
    (∀ l : List FPath, (ModuleReloader.sortedEviction l).Perm l) ∧
    (∀ (l : List FPath) (i j : Fin (ModuleReloader.sortedEviction l).length),
        i < j →
        ((ModuleReloader.sortedEviction l).get j).length ≤
          ((ModuleReloader.sortedEviction l).get i).length) := by
  have hp : ∀ l : List FPath, List.Pairwise (fun a b => b.length ≤ a.length)
      (ModuleReloader.sortedEviction l) := by
    intro l
    have h := @List.sorted_mergeSort FPath
      (fun a b => decide (b.length ≤ a.length))
      (fun a b c hab hbc => by
        simp only [decide_eq_true_eq] at hab hbc ⊢
        exact le_trans hbc hab)
      (fun a b => by
        rcases le_total a.length b.length with h | h <;> simp [h])
      l
    exact h.imp (by intro a b hab; simpa using hab)
  refine ⟨hp, fun l => List.mergeSort_perm l _, ?_⟩
  intro l i j hij
  exact List.pairwise_iff_get.mp (hp l) i j hij

/-- C6: after a successful load, a module exposing `run` has it invoked —
an exception from the call is caught, its traceback persisted, and the loop
not crashed (the module reference survives) — while a module without `run`
only gets a yellow warning diagnostic and an unchanged log. -/
theorem user_run_executed_or_warned (entryName : String) (st : Engine.EngineState)
    (m : Engine.UserModule) (hm : st.userModule = some m) :
    (∀ tb, m.run = some (Except.error tb) →
       (Engine.execute_user_code entryName st).logContents = some tb ∧
       (Engine.execute_user_code entryName st).userModule = st.userModule) ∧
    (m.run = none →
       Engine.execute_user_code entryName st =
         { st with diagnostics := st.diagnostics ++
            [⟨"[?] Warning: No 'run()' function found in " ++ entryName ++ ".py",
              Engine.Color.yellow⟩] }) ∧
    (∀ u, m.run = some (Except.ok u) →
       (Engine.execute_user_code entryName st).logContents = st.logContents) := by
  refine ⟨?_, ?_, ?_⟩
  · intro tb htb
    simp [Engine.execute_user_code, hm, htb, Engine.log_error]
  · intro hnone
    simp [Engine.execute_user_code, hm, hnone]
  · intro u hu
    simp [Engine.execute_user_code, hm, hu]

/-- C6, witness: a `run()` that raises `boom` gets its traceback persisted. -/
theorem user_run_executed_or_warned_witness :
    (Engine.execute_user_code "app"
        ⟨some ⟨some (Except.error "boom")⟩, none, []⟩).logContents = some "boom" :=
  ((user_run_executed_or_warned "app" _ ⟨some (Except.error "boom")⟩ rfl).1 "boom" rfl).1

/-- C5: no failure during (re)load or user-code invocation escapes the
control loop: an interrupt-free trace always runs to an `ok` state; a tick
whose reload fails still yields `ok`, with the traceback persisted, a red
diagnostic emitted and the module reference cleared; the only `error` exit
is the explicit interrupt. -/
theorem engine_loop_survives (entryName : String) (st : Engine.EngineState) :
    (∀ inps : List Engine.TickInput, (∀ inp ∈ inps, inp.interrupt = false) →
       ∃ st1, Engine.engine_run entryName st inps = Except.ok st1) ∧
    (∀ inp : Engine.TickInput, inp.interrupt = false →
       inp.changeDetected = true →
       Engine.DEBOUNCE_SECONDS ≤ inp.timeSinceLastSave →
       ∀ tb, inp.importOutcome = Except.error tb →
       ∃ st1, Engine.engine_tick entryName st inp = Except.ok st1 ∧
         st1.userModule = none ∧ st1.logContents = some tb ∧
         Engine.Diag.mk "[!] EXECUTION/RECONSTRUCTION FAILED" Engine.Color.red
           ∈ st1.diagnostics) ∧
    (∀ inp : Engine.TickInput, inp.interrupt = true →
       Engine.engine_tick entryName st inp = Except.error ()) := by
  refine ⟨?_, ?_, ?_⟩
  · intro inps
    induction inps generalizing st with
    | nil => intro _; exact ⟨st, rfl⟩
    | cons inp rest ih =>
      intro hni
      have h0 : inp.interrupt = false := hni inp (List.mem_cons_self _ _)
      have hrest : ∀ i ∈ rest, i.interrupt = false :=
        fun i hi => hni i (List.mem_cons_of_mem _ hi)
      have htick : ∃ sx, Engine.engine_tick entryName st inp = Except.ok sx := by
        simp only [Engine.engine_tick, h0, Bool.false_eq_true, if_false]
        exact ⟨_, rfl⟩
      obtain ⟨sx, hsx⟩ := htick
      obtain ⟨st1, h1⟩ := ih sx hrest
      exact ⟨st1, by simp [Engine.engine_run, hsx, h1]⟩
  · intro inp h0 hc hd tb htb
    refine ⟨{ Engine.log_error { st with diagnostics := st.diagnostics ++
        [⟨"[v] Stable change detected. Attempting recovery...", Engine.Color.yellow⟩] } tb
        with userModule := none }, ?_, ?_, ?_, ?_⟩
    · simp [Engine.engine_tick, h0, hc, hd, htb, Engine.safe_import]
    · rfl
    · simp [Engine.log_error]
    · simp [Engine.log_error, List.mem_append]
  · intro inp h1
    simp [Engine.engine_tick, h1]

/-! String-surgery helper lemmas for module identities. -/

theorem iterParent_eq_iterate (n : Nat) : ∀ p : FPath,
    iterParent p n = (fun q => parentDir q)^[n] p := by
  induction n with
  | zero => intro p; rfl
  | succ k ih =>
    intro p
    simp only [iterParent, ih, Function.iterate_succ_apply]

theorem splitLastDot_eq_none (ys : List Char) (h : ∀ c ∈ ys, c ≠ '.') :
    ModuleReloader.splitLastDot ys = none := by
  induction ys with
  | nil => rfl
  | cons c rest ih =>
    have hc : c ≠ '.' := h c (List.mem_cons_self _ _)
    have hrest := ih (fun x hx => h x (List.mem_cons_of_mem _ hx))
    simp [ModuleReloader.splitLastDot, hrest, hc]

theorem splitLastDot_append_dot (xs ys : List Char) (h : ∀ c ∈ ys, c ≠ '.') :
    ModuleReloader.splitLastDot (xs ++ '.' :: ys) = some (xs, ys) := by
  induction xs with
  | nil =>
    simp [ModuleReloader.splitLastDot, splitLastDot_eq_none ys h]
  | cons x xs ih =>
    simp [ModuleReloader.splitLastDot, ih]

theorem stripExt_append_py (x : String) (hx : x ≠ "") :
    ModuleReloader.stripExt (x ++ ".py") = x := by
  have htl : (x ++ ".py").toList = x.toList ++ '.' :: ['p', 'y'] := by
    show (x ++ ".py").data = x.data ++ '.' :: ['p', 'y']
    rw [String.data_append]
  have hys : ∀ c ∈ ['p', 'y'], c ≠ '.' := by decide
  have hne : x.toList ≠ [] := by
    intro h
    apply hx
    have hmk : String.mk x.toList = x := rfl
    rw [h] at hmk
    exact hmk.symm
  simp only [ModuleReloader.stripExt, htl, splitLastDot_append_dot _ _ hys]
  rw [if_pos (And.intro hne (by decide))]
  rfl

theorem withSuffixRemoved_concat (ps : List String) (x : String) :
    ModuleReloader.withSuffixRemoved (ps ++ [x]) = ps ++ [ModuleReloader.stripExt x] := by
  induction ps with
  | nil => rfl
  | cons a ps ih =>
    cases ps with
    | nil => rfl
    | cons b ps => simpa [ModuleReloader.withSuffixRemoved] using ih

/-- C7: `_resolve_import_to_path` tries, in order, the package-member file,
the direct module file, and the package initializer under the anchor — the
project root for absolute imports, or the importing file's ancestor one
directory up per relative level — taking the first candidate on disk and
returning `none` (the import is external, dropped without error) when none
exists. -/
theorem resolution_search_order (fs : FS) (baseDir : FPath) (baseName : List String)
    (level : Nat) (cur : Option FPath) :
    (∀ i : String,
       pExists fs (DependencyTracker.anchorDir baseDir level cur ++ baseName ++
         [i ++ ".py"]) = true →
       DependencyTracker.resolve_import_to_path fs baseDir baseName (some i) level cur =
         some (DependencyTracker.anchorDir baseDir level cur ++ baseName ++
           [i ++ ".py"])) ∧
    (∀ i : String,
       pExists fs (DependencyTracker.anchorDir baseDir level cur ++ baseName ++
         [i ++ ".py"]) = false →
       DependencyTracker.resolve_import_to_path fs baseDir baseName (some i) level cur =
         DependencyTracker.resolve_import_to_path fs baseDir baseName none level cur) ∧
    (pExists fs (DependencyTracker.anchorDir baseDir level cur ++
        DependencyTracker.withPySuffix baseName) = true →
       DependencyTracker.resolve_import_to_path fs baseDir baseName none level cur =
         some (DependencyTracker.anchorDir baseDir level cur ++
           DependencyTracker.withPySuffix baseName)) ∧
    (pExists fs (DependencyTracker.anchorDir baseDir level cur ++
        DependencyTracker.withPySuffix baseName) = false →
      pExists fs (DependencyTracker.anchorDir baseDir level cur ++ baseName ++
        ["__init__.py"]) = true →
       DependencyTracker.resolve_import_to_path fs baseDir baseName none level cur =
         some (DependencyTracker.anchorDir baseDir level cur ++ baseName ++
           ["__init__.py"])) ∧
    (pExists fs (DependencyTracker.anchorDir baseDir level cur ++
        DependencyTracker.withPySuffix baseName) = false →
      pExists fs (DependencyTracker.anchorDir baseDir level cur ++ baseName ++
        ["__init__.py"]) = false →
       DependencyTracker.resolve_import_to_path fs baseDir baseName none level cur =
         none) ∧
    DependencyTracker.anchorDir baseDir 0 cur = baseDir ∧
    DependencyTracker.anchorDir baseDir level none = baseDir ∧
    (∀ (l : Nat) (f : FPath),
       DependencyTracker.anchorDir baseDir (l + 1) (some f) =
         (fun q => parentDir q)^[l + 1] f) ∧
    (∀ (fp : FPath) (n : List String),
       DependencyTracker.resolve_import_to_path fs baseDir n none 0 none = none →
       DependencyTracker.stmtFoundPaths fs baseDir fp (ImportStmt.imp [n]) = []) := by
  refine ⟨?_, ?_, ?_, ?_, ?_, ?_, ?_, ?_, ?_⟩
  · intro i h1
    simp only [List.append_assoc] at h1
    simp [DependencyTracker.resolve_import_to_path, DependencyTracker.search_paths,
      List.find?, h1]
  · intro i h1
    simp only [List.append_assoc] at h1
    simp [DependencyTracker.resolve_import_to_path, DependencyTracker.search_paths,
      List.find?, h1]
  · intro h2
    simp [DependencyTracker.resolve_import_to_path, DependencyTracker.search_paths,
      List.find?, h2]
  · intro h2 h3
    simp only [List.append_assoc] at h3
    simp [DependencyTracker.resolve_import_to_path, DependencyTracker.search_paths,
      List.find?, h2, h3]
  · intro h2 h3
    simp only [List.append_assoc] at h3
    simp [DependencyTracker.resolve_import_to_path, DependencyTracker.search_paths,
      List.find?, h2, h3]
  · rfl
  · cases level <;> rfl
  · intro l f
    simp [DependencyTracker.anchorDir, iterParent_eq_iterate,
      Function.iterate_succ_apply]
  · intro fp n hnone
    simp [DependencyTracker.stmtFoundPaths, hnone]

/-- C8: logical module identity is a pure function of file path and project
root: a file strictly inside the root maps to the dotted relative path with
its suffix removed, a package initializer maps to its directory's identity,
a file outside the root has no identity, and such a file (when it is not the
entry point) is skipped silently by the eviction pass. -/
theorem module_identity_derivation (root : FPath) :
    (∀ file : FPath, ¬ root <+: file → ModuleReloader.get_module_name root file = none) ∧
    (∀ (ps : List String) (x : String), x ≠ "" → x ≠ "__init__" →
       ModuleReloader.get_module_name root (root ++ ps ++ [x ++ ".py"]) =
         some (String.intercalate "." (ps ++ [x]))) ∧
    (∀ ps : List String,
       ModuleReloader.get_module_name root (root ++ ps ++ ["__init__.py"]) =
         some (String.intercalate "." ps)) ∧
    (∀ (st : List String × List String) (file entryPoint : FPath),
       ¬ root <+: file → file ≠ entryPoint →
       ModuleReloader.evictOne entryPoint root st file = st) := by
  refine ⟨?_, ?_, ?_, ?_⟩
  · intro file h
    simp [ModuleReloader.get_module_name, h]
  · intro ps x hx hxi
    have hpre : root <+: root ++ ps ++ [x ++ ".py"] := by
      simp [List.append_assoc]
    have hdrop : (root ++ ps ++ [x ++ ".py"]).drop root.length = ps ++ [x ++ ".py"] := by
      rw [List.append_assoc]
      exact List.drop_left root (ps ++ [x ++ ".py"])
    simp only [ModuleReloader.get_module_name, hpre, if_true, hdrop,
      withSuffixRemoved_concat, stripExt_append_py x hx]
    have hlast : (ps ++ [x]).getLast? = some x := List.getLast?_concat _
    simp [hlast, hxi]
  · intro ps
    have hpre : root <+: root ++ ps ++ ["__init__.py"] := by
      simp [List.append_assoc]
    have hdrop : (root ++ ps ++ ["__init__.py"]).drop root.length = ps ++ ["__init__.py"] := by
      rw [List.append_assoc]
      exact List.drop_left root (ps ++ ["__init__.py"])
    have hstrip : ModuleReloader.stripExt "__init__.py" = "__init__" :=
      stripExt_append_py "__init__" (by decide)
    simp only [ModuleReloader.get_module_name, hpre, if_true, hdrop,
      withSuffixRemoved_concat, hstrip]
    have hlast : (ps ++ ["__init__"]).getLast? = some "__init__" := List.getLast?_concat _
    simp [hlast, List.dropLast_concat]
  · intro st file entryPoint hout hne
    simp [ModuleReloader.evictOne, ModuleReloader.get_module_name, hout, hne]

/-- The package initializer sitting directly in the project root derives the
empty dotted name. -/
theorem get_module_name_root_init (root : FPath) :
    ModuleReloader.get_module_name root (root ++ ["__init__.py"]) = some "" := by
  have hpre : root <+: root ++ ["__init__.py"] := List.prefix_append _ _
  have hdrop : (root ++ ["__init__.py"]).drop root.length = ["__init__.py"] :=
    List.drop_left _ _
  have hstrip : ModuleReloader.stripExt "__init__.py" = "__init__" :=
    stripExt_append_py "__init__" (by decide)
  simp [ModuleReloader.get_module_name, hpre, hdrop,
    ModuleReloader.withSuffixRemoved, hstrip, String.intercalate]

/-- One eviction step never records the empty (falsy) module name. -/
theorem evictOne_preserves_no_empty (entryPoint root : FPath)
    (hstem : ModuleReloader.stripExt (entryPoint.getLastD "") ≠ "")
    (st : List String × List String) (p : FPath) (h : "" ∉ st.1) :
    "" ∉ (ModuleReloader.evictOne entryPoint root st p).1 := by
  have hap : ∀ (l : List String) (a : String), "" ∉ l → a ≠ "" → "" ∉ l ++ [a] := by
    intro l a hl ha hmem
    rcases List.mem_append.mp hmem with hin | hin
    · exact hl hin
    · exact ha (List.mem_singleton.mp hin).symm
  unfold ModuleReloader.evictOne
  rcases hgm : ModuleReloader.get_module_name root p with _ | name <;> simp only [hgm]
  · by_cases h2 : p = entryPoint
    · rw [if_pos h2]
      by_cases h3 : ModuleReloader.stripExt (entryPoint.getLastD "") ∈ st.2
      · rw [if_pos h3]
        exact hap _ _ h hstem
      · rw [if_neg h3]
        exact h
    · rw [if_neg h2]
      exact h
  · by_cases h1 : name ≠ "" ∧ name ∈ st.2
    · rw [if_pos h1]
      by_cases h2 : p = entryPoint
      · rw [if_pos h2]
        by_cases h3 : ModuleReloader.stripExt (entryPoint.getLastD "") ∈
            (st.1 ++ [name], List.filter (fun m => !(m == name)) st.2).2
        · rw [if_pos h3]
          exact hap _ _ (hap _ _ h h1.1) hstem
        · rw [if_neg h3]
          exact hap _ _ h h1.1
      · rw [if_neg h2]
        exact hap _ _ h h1.1
    · rw [if_neg h1]
      by_cases h2 : p = entryPoint
      · rw [if_pos h2]
        by_cases h3 : ModuleReloader.stripExt (entryPoint.getLastD "") ∈ st.2
        · rw [if_pos h3]
          exact hap _ _ h hstem
        · rw [if_neg h3]
          exact h
      · rw [if_neg h2]
        exact h

theorem foldl_evictOne_no_empty (entryPoint root : FPath)
    (hstem : ModuleReloader.stripExt (entryPoint.getLastD "") ≠ "") :
    ∀ (paths : List FPath) (st : List String × List String), "" ∉ st.1 →
    "" ∉ (paths.foldl (ModuleReloader.evictOne entryPoint root) st).1 := by
  intro paths
  induction paths with
  | nil => intro st h; exact h
  | cons p rest ih =>
    intro st h
    exact ih _ (evictOne_preserves_no_empty entryPoint root hstem st p h)

/-- C10: a package initializer directly in the project root derives the empty
string as its logical identity; the empty string is falsy, so an eviction
pass containing `root/__init__.py` leaves its cache entry untouched, and the
empty identity never appears in the returned evicted list. -/
theorem root_init_identity_falsy_never_evicted :
    (∀ root : FPath,
       ModuleReloader.get_module_name root (root ++ ["__init__.py"]) = some "") ∧
    (∀ (root entryPoint : FPath) (st : List String × List String),
       root ++ ["__init__.py"] ≠ entryPoint →
       ModuleReloader.evictOne entryPoint root st (root ++ ["__init__.py"]) = st) ∧
    (∀ (fs : FS) (entryPoint : FPath) (sysMods : List String) (dirty : List FPath),
       ModuleReloader.stripExt (entryPoint.getLastD "") ≠ "" →
       "" ∉ (ModuleReloader.reload_affected_modules fs entryPoint sysMods dirty).1) := by
  refine ⟨get_module_name_root_init, ?_, ?_⟩
  · intro root entryPoint st hne
    simp [ModuleReloader.evictOne, get_module_name_root_init, hne]
  · intro fs entryPoint sysMods dirty hstem
    by_cases hd : dirty = []
    · simp [ModuleReloader.reload_affected_modules, hd]
    · simp only [ModuleReloader.reload_affected_modules, hd, if_false, List.mem_dedup]
      exact foldl_evictOne_no_empty entryPoint (parentDir entryPoint) hstem _ _
        (by simp)

/-! Properties of the dependents work-stack loop. -/

theorem loop_grows (dep : FPath → List FPath) (allFiles : List FPath) :
    ∀ (stack toEvict : List FPath),
      toEvict ⊆ ModuleReloader.get_all_dependents_loop dep allFiles stack toEvict := by
  intro stack toEvict
  induction stack, toEvict using ModuleReloader.get_all_dependents_loop.induct dep allFiles with
  | case1 te =>
    rw [ModuleReloader.get_all_dependents_loop]
    exact List.Subset.refl _
  | case2 te current rest ih =>
    rw [ModuleReloader.get_all_dependents_loop]
    exact List.Subset.trans (List.subset_append_left _ _) ih

theorem loop_least (dep : FPath → List FPath) (allFiles : List FPath) (S : List FPath)
    (hS : ∀ c ∈ allFiles, (∃ e ∈ S, e ∈ dep c) → c ∈ S) :
    ∀ (stack toEvict : List FPath), stack ⊆ toEvict → toEvict ⊆ S →
      ModuleReloader.get_all_dependents_loop dep allFiles stack toEvict ⊆ S := by
  intro stack toEvict
  induction stack, toEvict using ModuleReloader.get_all_dependents_loop.induct dep allFiles with
  | case1 te =>
    intro _ hte
    rw [ModuleReloader.get_all_dependents_loop]
    exact hte
  | case2 te current rest ih =>
    intro hstack hte
    rw [ModuleReloader.get_all_dependents_loop]
    apply ih
    · intro x hx
      rcases List.mem_append.mp hx with hx | hx
      · exact List.mem_append_right _ (List.mem_reverse.mp hx)
      · exact List.mem_append_left _ (hstack (List.mem_cons_of_mem _ hx))
    · intro x hx
      rcases List.mem_append.mp hx with hx | hx
      · exact hte hx
      · have hfp := List.mem_filter.mp hx
        have hcond := hfp.2
        simp only [Bool.and_eq_true, decide_eq_true_eq] at hcond
        exact hS x hfp.1 ⟨current, hte (hstack (List.mem_cons_self _ _)), hcond.2⟩

theorem loop_closed (dep : FPath → List FPath) (allFiles : List FPath) :
    ∀ (stack toEvict : List FPath),
      (∀ e ∈ toEvict, e ∈ stack ∨ ∀ c ∈ allFiles, c ∉ toEvict → e ∉ dep c) →
      ∀ c ∈ allFiles,
        c ∉ ModuleReloader.get_all_dependents_loop dep allFiles stack toEvict →
      ∀ e ∈ ModuleReloader.get_all_dependents_loop dep allFiles stack toEvict,
        e ∉ dep c := by
  intro stack toEvict
  induction stack, toEvict using ModuleReloader.get_all_dependents_loop.induct dep allFiles with
  | case1 te =>
    intro hinv c hc hcR e heR
    rw [ModuleReloader.get_all_dependents_loop] at hcR heR
    rcases hinv e heR with he | he
    · simp at he
    · exact he c hc hcR
  | case2 te current rest ih =>
    intro hinv c hc
    rw [ModuleReloader.get_all_dependents_loop]
    apply ih _ c hc
    intro e he
    rcases List.mem_append.mp he with he | he
    · rcases hinv e he with hst | hcl
      · rcases List.mem_cons.mp hst with rfl | hst
        · right
          intro c' hc' hcn hdep
          apply hcn
          apply List.mem_append_right
          apply List.mem_filter.mpr
          refine ⟨hc', ?_⟩
          have hc'nte : c' ∉ te := fun hmem => hcn (List.mem_append_left _ hmem)
          simp [hc'nte, hdep]
        · left
          exact List.mem_append_right _ hst
      · right
        intro c' hc' hcn
        exact hcl c' hc' (fun hmem => hcn (List.mem_append_left _ hmem))
    · left
      exact List.mem_append_left _ (List.mem_reverse.mpr he)

/-- Path of `proj/pkg/a.py`, importing `b`. -/
def chainA : FPath := ["proj", "pkg", "a.py"]

/-- Path of `proj/pkg/b.py`, importing `c`. -/
def chainB : FPath := ["proj", "pkg", "b.py"]

/-- Path of `proj/pkg/c.py`, a leaf. -/
def chainC : FPath := ["proj", "pkg", "c.py"]

/-- The chain project: `pkg/a` imports `pkg/b` imports `pkg/c`. -/
def chainFS : FS :=
  [⟨chainA, some [ImportStmt.imp [["b"]]]⟩,
   ⟨chainB, some [ImportStmt.imp [["c"]]]⟩,
   ⟨chainC, some []⟩]

/-- C3: the to-evict set of an invalidation pass is the least superset of the
dirty files closed under dependents within the project universe
`resolve(entryFile)`: it contains the dirty files, any candidate whose own
freshly recomputed dependency set meets it is inside it, and it is contained
in every set with those two properties; dirtying `pkg/c` in the chain
`pkg/a → pkg/b → pkg/c` evicts exactly `{c, b, a}`. -/
theorem invalidate_least_dependent_closure :
    (∀ (fs : FS) (entryPoint : FPath) (dirty : List FPath),
       ∀ p ∈ dirty, p ∈ ModuleReloader.to_evict_paths fs entryPoint dirty) ∧
    (∀ (fs : FS) (entryPoint : FPath) (dirty : List FPath) (c : FPath),
       c ∈ DependencyTracker.get_local_dependencies fs entryPoint →
       c ∉ ModuleReloader.to_evict_paths fs entryPoint dirty →
       ∀ e ∈ ModuleReloader.to_evict_paths fs entryPoint dirty,
         e ∉ DependencyTracker.get_local_dependencies fs c) ∧
    (∀ (fs : FS) (entryPoint : FPath) (dirty : List FPath) (S : List FPath),
       (∀ p ∈ dirty, p ∈ S) →
       (∀ c ∈ DependencyTracker.get_local_dependencies fs entryPoint,
          (∃ e ∈ S, e ∈ DependencyTracker.get_local_dependencies fs c) → c ∈ S) →
       ∀ p ∈ ModuleReloader.to_evict_paths fs entryPoint dirty, p ∈ S) ∧
    ModuleReloader.to_evict_paths chainFS chainA [chainC] = [chainC, chainB, chainA] := by
  refine ⟨?_, ?_, ?_, ?_⟩
  · intro fs entryPoint dirty p hp
    exact loop_grows _ _ dirty dirty hp
  · intro fs entryPoint dirty c hc hcR e heR
    exact loop_closed _ _ dirty dirty (fun e he => Or.inl he) c hc hcR e heR
  · intro fs entryPoint dirty S h1 h2 p hp
    exact loop_least _ _ S h2 dirty dirty (List.Subset.refl _) h1 hp
  · have hA : DependencyTracker.get_local_dependencies chainFS chainA =
        [chainC, chainB, chainA] := by
      simp [DependencyTracker.get_local_dependencies, DependencyTracker.scan,
        DependencyTracker.scanPaths, DependencyTracker.findFile,
        DependencyTracker.fileFoundPaths, DependencyTracker.stmtFoundPaths,
        DependencyTracker.resolve_import_to_path, DependencyTracker.search_paths,
        DependencyTracker.anchorDir, DependencyTracker.withPySuffix,
        pExists, fsPaths, parentDir, chainFS, chainA, chainB, chainC, List.find?,
        List.flatten, List.filterMap, List.contains, beq_self_eq_true]
    have hB : DependencyTracker.get_local_dependencies chainFS chainB =
        [chainC, chainB] := by
      simp [DependencyTracker.get_local_dependencies, DependencyTracker.scan,
        DependencyTracker.scanPaths, DependencyTracker.findFile,
        DependencyTracker.fileFoundPaths, DependencyTracker.stmtFoundPaths,
        DependencyTracker.resolve_import_to_path, DependencyTracker.search_paths,
        DependencyTracker.anchorDir, DependencyTracker.withPySuffix,
        pExists, fsPaths, parentDir, chainFS, chainA, chainB, chainC, List.find?,
        List.flatten, List.filterMap, List.contains, beq_self_eq_true]
    have hC : DependencyTracker.get_local_dependencies chainFS chainC = [chainC] := by
      simp [DependencyTracker.get_local_dependencies, DependencyTracker.scan,
        DependencyTracker.scanPaths, DependencyTracker.findFile,
        DependencyTracker.fileFoundPaths, DependencyTracker.stmtFoundPaths,
        DependencyTracker.resolve_import_to_path, DependencyTracker.search_paths,
        DependencyTracker.anchorDir, DependencyTracker.withPySuffix,
        pExists, fsPaths, parentDir, chainFS, chainA, chainB, chainC, List.find?,
        List.flatten, List.filterMap, List.contains, beq_self_eq_true]
    simp only [chainA, chainB, chainC] at hA hB hC
    simp [ModuleReloader.to_evict_paths, ModuleReloader.get_all_dependents,
      ModuleReloader.get_all_dependents_loop, hA, hB, hC, chainA, chainB, chainC]

namespace TraceModel

/-- Fold step of a watcher poll, additionally logging each file whose
modification time strictly increased, stamped with the poll time (pure
instrumentation: the first component is exactly `pollOne`). -/
def pollOneObs (now : ℚ) (acc : FileWatcher.WatcherState × List (FPath × ℚ))
    (pm : FPath × ℚ) : FileWatcher.WatcherState × List (FPath × ℚ) :=
  (FileWatcher.pollOne now acc.1 pm,
   if FileWatcher.mtimeGet acc.1.lastMtimes pm.1 < pm.2 then acc.2 ++ [(pm.1, now)]
   else acc.2)

theorem pollOneObs_fst (now : ℚ) (observed : List (FPath × ℚ)) :
    ∀ (w : FileWatcher.WatcherState) (o : List (FPath × ℚ)),
      (observed.foldl (pollOneObs now) (w, o)).1 = FileWatcher.pollStep now observed w := by
  induction observed with
  | nil => intro w o; rfl
  | cons pm rest ih =>
    intro w o
    simp only [List.foldl_cons, FileWatcher.pollStep] at ih ⊢
    exact ih _ _

/-- An interleaving event: a background watcher poll at time `t` observing
the given modification times, or one foreground engine control-loop tick at
time `t`. -/
inductive SysEvent where
  | poll (t : ℚ) (observed : List (FPath × ℚ))
  | tick (t : ℚ)

/-- The time at which an event happens. -/
def evTime : SysEvent → ℚ
  | SysEvent.poll t _ => t
  | SysEvent.tick t => t

/-- Watcher state plus specification instrumentation: the pending
observations (dirtied file, detection time), and the completed reload cycles
(drain time, drained dirty set, observations consumed by the drain). -/
structure SysState where
  w : FileWatcher.WatcherState
  obs : List (FPath × ℚ)
  cycles : List (ℚ × List FPath × List (FPath × ℚ))

/-- One interleaving step: a poll runs the watcher loop body; a tick performs
reload processing (drain, invalidate, reimport) exactly when the engine's
debounce guard `change_detected ∧ now - last_change_time ≥ DEBOUNCE_SECONDS`
passes, consuming the dirty set atomically. -/
def sysStep (s : SysState) : SysEvent → SysState
  | SysEvent.poll t observed =>
      { s with
        w := (observed.foldl (pollOneObs t) (s.w, s.obs)).1,
        obs := (observed.foldl (pollOneObs t) (s.w, s.obs)).2 }
  | SysEvent.tick t =>
      if s.w.changeDetected = true ∧ Engine.DEBOUNCE_SECONDS ≤ t - s.w.lastChangeTime then
        { w := (FileWatcher.get_and_clear_dirty s.w).2,
          obs := [],
          cycles := s.cycles ++ [(t, (FileWatcher.get_and_clear_dirty s.w).1, s.obs)] }
      else s

/-- Run a finite interleaving trace. -/
def sysRun (s : SysState) : List SysEvent → SysState
  | [] => s
  | e :: rest => sysRun (sysStep s e) rest

theorem chain_le_replace {b t : ℚ} {ts : List ℚ} (hbt : b ≤ t)
    (h : List.Chain' (· ≤ ·) (t :: ts)) : List.Chain' (· ≤ ·) (b :: ts) := by
  cases ts with
  | nil => simp
  | cons u us =>
    rw [List.chain'_cons] at h ⊢
    exact ⟨le_trans hbt h.1, h.2⟩

theorem pollFold_inv (t : ℚ) (observed : List (FPath × ℚ)) :
    ∀ (w : FileWatcher.WatcherState) (o : List (FPath × ℚ)),
      (∀ pr ∈ o, pr.2 ≤ w.lastChangeTime) → w.lastChangeTime ≤ t →
      (∀ f : FPath, f ∈ w.changedFiles ↔ ∃ T, (f, T) ∈ o) →
      (∀ pr ∈ (observed.foldl (pollOneObs t) (w, o)).2,
         pr.2 ≤ (observed.foldl (pollOneObs t) (w, o)).1.lastChangeTime) ∧
      (observed.foldl (pollOneObs t) (w, o)).1.lastChangeTime ≤ t ∧
      (∀ f : FPath, f ∈ (observed.foldl (pollOneObs t) (w, o)).1.changedFiles ↔
         ∃ T, (f, T) ∈ (observed.foldl (pollOneObs t) (w, o)).2) := by
  induction observed with
  | nil => intro w o h1 h2 h3; exact ⟨h1, h2, h3⟩
  | cons pm rest ih =>
    intro w o h1 h2 h3
    simp only [List.foldl_cons]
    by_cases htrig : FileWatcher.mtimeGet w.lastMtimes pm.1 < pm.2
    · have hstep : pollOneObs t (w, o) pm =
          (⟨FileWatcher.mtimeSet w.lastMtimes pm.1 pm.2,
            if pm.1 ∈ w.changedFiles then w.changedFiles else w.changedFiles ++ [pm.1],
            true, t⟩, o ++ [(pm.1, t)]) := by
        simp [pollOneObs, FileWatcher.pollOne, htrig]
      rw [hstep]
      apply ih
      · intro pr hpr
        rcases List.mem_append.mp hpr with hpr | hpr
        · exact le_trans (h1 pr hpr) h2
        · rw [List.mem_singleton.mp hpr]
      · exact le_refl t
      · intro f
        by_cases hf : pm.1 ∈ w.changedFiles
        · rw [if_pos hf]
          constructor
          · intro hmem
            obtain ⟨T, hT⟩ := (h3 f).mp hmem
            exact ⟨T, List.mem_append_left _ hT⟩
          · intro ⟨T, hT⟩
            rcases List.mem_append.mp hT with hT | hT
            · exact (h3 f).mpr ⟨T, hT⟩
            · have := List.mem_singleton.mp hT
              have hfp : f = pm.1 := congrArg Prod.fst this
              rw [hfp]
              exact hf
        · rw [if_neg hf]
          constructor
          · intro hmem
            rcases List.mem_append.mp hmem with hmem | hmem
            · obtain ⟨T, hT⟩ := (h3 f).mp hmem
              exact ⟨T, List.mem_append_left _ hT⟩
            · rw [List.mem_singleton.mp hmem]
              exact ⟨t, List.mem_append_right _ (List.mem_singleton.mpr rfl)⟩
          · intro ⟨T, hT⟩
            rcases List.mem_append.mp hT with hT | hT
            · exact List.mem_append_left _ ((h3 f).mpr ⟨T, hT⟩)
            · have hfp : f = pm.1 := congrArg Prod.fst (List.mem_singleton.mp hT)
              rw [hfp]
              exact List.mem_append_right _ (List.mem_singleton.mpr rfl)
    · have hstep : pollOneObs t (w, o) pm = (w, o) := by
        simp [pollOneObs, FileWatcher.pollOne, htrig]
      rw [hstep]
      exact ih w o h1 h2 h3

theorem sysRun_cycles (evs : List SysEvent) :
    ∀ s : SysState,
      (∀ pr ∈ s.obs, pr.2 ≤ s.w.lastChangeTime) →
      (∀ f : FPath, f ∈ s.w.changedFiles ↔ ∃ T, (f, T) ∈ s.obs) →
      List.Chain' (· ≤ ·) (s.w.lastChangeTime :: evs.map evTime) →
      (∀ c ∈ s.cycles,
        (∀ pr ∈ c.2.2, pr.2 + Engine.DEBOUNCE_SECONDS ≤ c.1) ∧
        (∀ f : FPath, f ∈ c.2.1 ↔ ∃ T, (f, T) ∈ c.2.2)) →
      ∀ c ∈ (sysRun s evs).cycles,
        (∀ pr ∈ c.2.2, pr.2 + Engine.DEBOUNCE_SECONDS ≤ c.1) ∧
        (∀ f : FPath, f ∈ c.2.1 ↔ ∃ T, (f, T) ∈ c.2.2) := by
  induction evs with
  | nil => intro s _ _ _ hc; exact hc
  | cons e rest ih =>
    intro s h1 h2 hchain hc
    rw [List.map_cons, List.chain'_cons] at hchain
    obtain ⟨hle, hchain'⟩ := hchain
    cases e with
    | poll t observed =>
      have hinv := pollFold_inv t observed s.w s.obs h1 hle h2
      exact ih _ hinv.1 hinv.2.2 (chain_le_replace hinv.2.1 hchain') hc
    | tick t =>
      by_cases hg : s.w.changeDetected = true ∧
          Engine.DEBOUNCE_SECONDS ≤ t - s.w.lastChangeTime
      · have hstep : sysStep s (SysEvent.tick t) =
            { w := (FileWatcher.get_and_clear_dirty s.w).2,
              obs := [],
              cycles := s.cycles ++ [(t, (FileWatcher.get_and_clear_dirty s.w).1, s.obs)] } := by
          simp [sysStep, hg]
        show ∀ c ∈ (sysRun (sysStep s (SysEvent.tick t)) rest).cycles, _
        rw [hstep]
        apply ih
        · intro pr hpr
          simp at hpr
        · intro f
          simp [FileWatcher.get_and_clear_dirty]
        · exact chain_le_replace (le_trans hle (by rfl)) hchain'
        · intro c hcmem
          rcases List.mem_append.mp hcmem with hcmem | hcmem
          · exact hc c hcmem
          · rw [List.mem_singleton.mp hcmem]
            constructor
            · intro pr hpr
              have := h1 pr hpr
              have hguard := hg.2
              linarith
            · intro f
              simpa [FileWatcher.get_and_clear_dirty] using h2 f
      · have hstep : sysStep s (SysEvent.tick t) = s := by
          simp only [sysStep, if_neg hg]
        show ∀ c ∈ (sysRun (sysStep s (SysEvent.tick t)) rest).cycles, _
        rw [hstep]
        exact ih s h1 h2 (chain_le_replace hle hchain') hc

end TraceModel

/-- C9: a change observed by the watcher at time `T` never triggers reload
processing before `T + 0.5 s`: every reload cycle of any well-formed
interleaving trace (times nondecreasing) drains at a time at least the
debounce threshold after each pending change's observation, and its dirty
set is exactly the union of the files dirtied since the previous drain —
several changes in one window collapse into that single cycle. -/
theorem change_never_reloads_before_debounce (evs : List TraceModel.SysEvent)
    (s0 : TraceModel.SysState)
    (hobs : ∀ pr ∈ s0.obs, pr.2 ≤ s0.w.lastChangeTime)
    (hcf : ∀ f : FPath, f ∈ s0.w.changedFiles ↔ ∃ T, (f, T) ∈ s0.obs)
    (hmono : List.Chain' (· ≤ ·) (s0.w.lastChangeTime :: evs.map TraceModel.evTime))
    (hpast : s0.cycles = []) :
    ∀ c ∈ (TraceModel.sysRun s0 evs).cycles,
      (∀ pr ∈ c.2.2, pr.2 + Engine.DEBOUNCE_SECONDS ≤ c.1) ∧
      (∀ f : FPath, f ∈ c.2.1 ↔ ∃ T, (f, T) ∈ c.2.2) := by
  apply TraceModel.sysRun_cycles evs s0 hobs hcf hmono
  intro c hcmem
  rw [hpast] at hcmem
  simp at hcmem

/-- Path of `proj/app.py`, the file dirtied in the demonstration trace. -/
def demoF : FPath := ["proj", "app.py"]

/-- Initial system state of the demonstration trace: empty watcher state at
time 0. -/
def demoS0 : TraceModel.SysState := ⟨⟨[], [], false, 0⟩, [], []⟩

/-- Demonstration trace: a poll at time 1 sees `app.py`'s mtime rise to 5, a
tick at time 2 is past the debounce window and drains. -/
def demoEvs : List TraceModel.SysEvent :=
  [TraceModel.SysEvent.poll 1 [(demoF, 5)], TraceModel.SysEvent.tick 2]

/-- C9, witness: in the demonstration trace, the single cycle drains at time
2, at least 0.5 s after the observation at time 1. -/
theorem change_never_reloads_before_debounce_witness :
    (1 : ℚ) + Engine.DEBOUNCE_SECONDS ≤ 2 :=
  ((change_never_reloads_before_debounce demoEvs demoS0
      (by simp [demoS0]) (by simp [demoS0])
      (by
        simp only [demoS0, demoEvs, List.map_cons, List.map_nil, TraceModel.evTime,
          List.chain'_cons, List.chain'_singleton]
        norm_num)
      rfl)
    (2, [demoF], [(demoF, 1)])
    (by
      norm_num [TraceModel.sysRun, TraceModel.sysStep, TraceModel.pollOneObs,
        FileWatcher.pollOne, FileWatcher.mtimeGet, FileWatcher.mtimeSet,
        FileWatcher.get_and_clear_dirty, Engine.DEBOUNCE_SECONDS, demoS0, demoEvs,
        demoF, List.find?])).1
    (demoF, 1) (by simp)
